import Mathlib

/-!
Verification of the reminder lifecycle of the HCI-Project voice assistant.

The repository ships the React frontend (frontend/src/App.js) together with
documentation of the Python backend; the backend modules themselves
(Notification_Scheduler.py, Reminder_Processor.py, Command_Processor.py,
Storage_Manager.py, app.py) are not part of the source tree.  Definitions for
those components are therefore modelled from the specification, as marked in
their doc comments.  Frontend definitions are translated directly from App.js.

Machine time is modelled as an integer count of seconds (timezone-naive local
wall clock, minute-resolution due times expressed in seconds).
-/

namespace ElderlyAssistant

/-- Record stored in the `scheduled_reminders` collection: an opaque id, the
free-form reminder text, the due moment (seconds of local wall-clock time) and
the delivered flag, false at creation. -/
structure ScheduledReminder where
  id : Nat
  text : String
  dueAt : Int
  completed : Bool
deriving Repr, DecidableEq

/-- Notification handed to the polling client: the originating reminder id,
the reminder text, a display string and the creation time of the notification. -/
structure Notification where
  id : Nat
  text : String
  message : String
  timestamp : Int
deriving Repr, DecidableEq

/-! ## NotificationScheduler -/

/-- Modelled from the spec: a reminder is due when `delta = due_at - now`
falls in the closed window [-60s, +10s]. -/
def isDue (delta : Int) : Bool :=
  decide (-60 ≤ delta ∧ delta ≤ 10)

/-- Modelled from the spec: the delivery sink `notify(text, id)` enqueues a
notification whose display string is the text prefixed with a reminder label
and whose timestamp is the notification creation time. -/
def notify (now : Int) (r : ScheduledReminder) : Notification :=
  { id := r.id, text := r.text, message := "Reminder: " ++ r.text, timestamp := now }

/-- Modelled from the spec: one scheduler visit to a single reminder during a
scan at time `now`.  A not-yet-completed reminder inside the due window is
delivered and marked completed; every other reminder is left untouched and
produces no notification (missed reminders are silently skipped). -/
def scanReminder (now : Int) (r : ScheduledReminder) :
    ScheduledReminder × Option Notification :=
  if !r.completed && isDue (r.dueAt - now) then
    ({ r with completed := true }, some (notify now r))
  else
    (r, none)

/-- Modelled from the spec: one full scheduler scan at time `now` over the
stored reminders, returning the updated store and the notifications pushed in
store iteration order. -/
def scan (now : Int) : List ScheduledReminder →
    List ScheduledReminder × List Notification
  | [] => ([], [])
  | r :: rest =>
    let hd := scanReminder now r
    let tl := scan now rest
    (hd.1 :: tl.1, (hd.2.toList) ++ tl.2)

/-- Modelled from the spec: the scheduler loop performing one scan per element
of `ts` (the successive scan times), threading the store and accumulating all
pushed notifications. -/
def runScans : List Int → List ScheduledReminder →
    List ScheduledReminder × List Notification
  | [], rs => (rs, [])
  | t :: ts, rs =>
    let s := scan t rs
    let rest := runScans ts s.1
    (rest.1, s.2 ++ rest.2)

/-- Notifications a single reminder produces when visited at the successive
scan times `ts`, following its own state through the scans. -/
def reminderEmissions : List Int → ScheduledReminder → List Notification
  | [], _ => []
  | t :: ts, r =>
    let s := scanReminder t r
    s.2.toList ++ reminderEmissions ts s.1

theorem scanReminder_completed (t : Int) (r : ScheduledReminder)
    (h : r.completed = true) : scanReminder t r = (r, none) := by
  simp [scanReminder, h]

theorem reminderEmissions_completed (ts : List Int) (r : ScheduledReminder)
    (h : r.completed = true) : reminderEmissions ts r = [] := by
  induction ts with
  | nil => rfl
  | cons t ts ih =>
    simp [reminderEmissions, scanReminder_completed t r h, ih]

theorem reminderEmissions_length_le_one (ts : List Int) (r : ScheduledReminder) :
    (reminderEmissions ts r).length ≤ 1 := by
  induction ts generalizing r with
  | nil => simp [reminderEmissions]
  | cons t ts ih =>
    by_cases hc : r.completed = true
    · simp [reminderEmissions_completed _ _ hc]
    · simp only [reminderEmissions]
      by_cases hd : isDue (r.dueAt - t) = true
      · have hb : (!r.completed && isDue (r.dueAt - t)) = true := by
          simp [Bool.not_eq_true] at hc ⊢
          exact ⟨hc, hd⟩
        simp only [scanReminder, hb, if_true]
        have : reminderEmissions ts { r with completed := true } = [] :=
          reminderEmissions_completed _ _ rfl
        simp [this]
      · have hb : (!r.completed && isDue (r.dueAt - t)) = false := by
          simp [hd]
        simp only [scanReminder, hb]
        simpa using ih r

theorem reminderEmissions_id (ts : List Int) (r : ScheduledReminder)
    (n : Notification) (hn : n ∈ reminderEmissions ts r) : n.id = r.id := by
  induction ts generalizing r with
  | nil => simp [reminderEmissions] at hn
  | cons t ts ih =>
    simp only [reminderEmissions, List.mem_append] at hn
    rcases hn with hn | hn
    · by_cases hb : (!r.completed && isDue (r.dueAt - t)) = true
      · simp only [scanReminder, hb, if_true, Option.toList_some,
          List.mem_singleton] at hn
        subst hn; rfl
      · simp only [scanReminder, Bool.not_eq_true] at hb
        simp [scanReminder, hb] at hn
    · by_cases hb : (!r.completed && isDue (r.dueAt - t)) = true
      · have := ih { r with completed := true } (by simpa [scanReminder, hb] using hn)
        simpa using this
      · simp only [Bool.not_eq_true] at hb
        exact ih r (by simpa [scanReminder, hb] using hn)

theorem runScans_store_nil (ts : List Int) : runScans ts [] = ([], []) := by
  induction ts with
  | nil => rfl
  | cons t ts ih => simp [runScans, scan, ih]

theorem runScans_cons_countP (p : Notification → Bool) (ts : List Int)
    (r : ScheduledReminder) (rs : List ScheduledReminder) :
    ((runScans ts (r :: rs)).2).countP p =
      (reminderEmissions ts r).countP p + ((runScans ts rs).2).countP p := by
  induction ts generalizing r rs with
  | nil => simp [runScans, reminderEmissions]
  | cons t ts ih =>
    simp only [runScans, scan, reminderEmissions, List.countP_append]
    rw [ih]
    omega

theorem emissions_countP_eq_zero (ts : List Int) (r : ScheduledReminder)
    (x : Nat) (hx : r.id ≠ x) :
    (reminderEmissions ts r).countP (fun n => decide (n.id = x)) = 0 := by
  rw [List.countP_eq_zero]
  intro n hn
  have := reminderEmissions_id ts r n hn
  simp [this, hx]

theorem runScans_countP_eq_zero (ts : List Int) (rs : List ScheduledReminder)
    (x : Nat) (hx : x ∉ rs.map ScheduledReminder.id) :
    ((runScans ts rs).2).countP (fun n => decide (n.id = x)) = 0 := by
  induction rs with
  | nil => simp [runScans_store_nil]
  | cons r rs ih =>
    simp only [List.map_cons, List.mem_cons, not_or] at hx
    rw [runScans_cons_countP]
    rw [emissions_countP_eq_zero ts r x (fun h => hx.1 h.symm), ih hx.2]

theorem emissions_countP_le_one (ts : List Int) (r : ScheduledReminder)
    (x : Nat) :
    (reminderEmissions ts r).countP (fun n => decide (n.id = x)) ≤ 1 := by
  calc (reminderEmissions ts r).countP (fun n => decide (n.id = x))
      ≤ (reminderEmissions ts r).length := List.countP_le_length _
    _ ≤ 1 := reminderEmissions_length_le_one ts r

/-- Claim C1: across any number of scheduler scans, a reminder whose id is
unique in the store is delivered at most once (the accumulated notification
stream contains at most one entry with its id), and the `completed` flag never
moves back from true — a completed reminder is left untouched by every later
scan, so the flag transitions false to true at most once and the scheduler
never deletes a reminder. -/
theorem c1_at_most_once_delivery (ts : List Int) (rs : List ScheduledReminder)
    (h : (rs.map ScheduledReminder.id).Nodup) (x : Nat) :
    ((runScans ts rs).2).countP (fun n => decide (n.id = x)) ≤ 1 ∧
    (∀ t r, r.completed = true → scanReminder t r = (r, none)) := by
  refine ⟨?_, scanReminder_completed⟩
  induction rs with
  | nil => simp [runScans_store_nil]
  | cons r rs ih =>
    simp only [List.map_cons, List.nodup_cons] at h
    rw [runScans_cons_countP]
    by_cases hx : r.id = x
    · have hzero : ((runScans ts rs).2).countP (fun n => decide (n.id = x)) = 0 :=
        runScans_countP_eq_zero ts rs x (by rw [← hx]; exact h.1)
      have := emissions_countP_le_one ts r x
      omega
    · rw [emissions_countP_eq_zero ts r x hx]
      simpa using ih h.2

theorem c1_at_most_once_delivery_witness :
    (([⟨1, "medicine", 5, false⟩, ⟨2, "water", 900, false⟩] :
        List ScheduledReminder).map ScheduledReminder.id).Nodup ∧
    (((runScans [0, 10, 20, 70]
        [⟨1, "medicine", 5, false⟩, ⟨2, "water", 900, false⟩]).2).countP
          (fun n => decide (n.id = 1)) ≤ 1 ∧
      (∀ t r, r.completed = true → scanReminder t r = (r, none))) :=
  ⟨by decide, c1_at_most_once_delivery [0, 10, 20, 70]
    [⟨1, "medicine", 5, false⟩, ⟨2, "water", 900, false⟩] (by decide) 1⟩

theorem missed_reminder_never_fires (now : Int) (r : ScheduledReminder)
    (hlt : r.dueAt - now < -60) :
    ∀ ts : List Int, (∀ t ∈ ts, now ≤ t) → reminderEmissions ts r = [] := by
  intro ts hts
  induction ts with
  | nil => rfl
  | cons t ts ih =>
    have h1 : r.dueAt - t < -60 := by
      have := hts t (List.mem_cons_self t ts)
      omega
    have hd : isDue (r.dueAt - t) = false := by
      simp only [isDue, decide_eq_false_iff_not]
      omega
    have hb : (!r.completed && isDue (r.dueAt - t)) = false := by
      simp [hd]
    simp only [reminderEmissions, scanReminder, hb, Bool.false_eq_true,
      if_false, Option.toList_none, List.nil_append]
    exact ih (fun u hu => hts u (List.mem_cons_of_mem t hu))

/-- Claim C2: during a scan at time `now`, a not-yet-completed reminder fires
if and only if `due_at - now` lies in the closed window [-60s, +10s]; and a
reminder already more than 60 seconds past due at `now` produces no
notification in any scan at or after `now` — it is silently skipped forever. -/
theorem c2_due_window (now : Int) (r : ScheduledReminder)
    (h : r.completed = false) :
    (((scanReminder now r).2).isSome = true ↔
      (-60 ≤ r.dueAt - now ∧ r.dueAt - now ≤ 10)) ∧
    (r.dueAt - now < -60 →
      ∀ ts : List Int, (∀ t ∈ ts, now ≤ t) → reminderEmissions ts r = []) := by
  constructor
  · constructor
    · intro hs
      by_contra hw
      have hd : isDue (r.dueAt - now) = false := by
        simp only [isDue, decide_eq_false_iff_not]
        exact hw
      simp [scanReminder, hd] at hs
    · intro hw
      have hd : isDue (r.dueAt - now) = true := by
        simp only [isDue, decide_eq_true_eq]
        exact hw
      simp [scanReminder, h, hd]
  · intro hlt
    exact missed_reminder_never_fires now r hlt

theorem c2_due_window_witness :
    (ScheduledReminder.mk 7 "pills" 300 false).completed = false ∧
    ((((scanReminder 305 (ScheduledReminder.mk 7 "pills" 300 false)).2).isSome = true ↔
      (-60 ≤ (ScheduledReminder.mk 7 "pills" 300 false).dueAt - 305 ∧
        (ScheduledReminder.mk 7 "pills" 300 false).dueAt - 305 ≤ 10)) ∧
     ((ScheduledReminder.mk 7 "pills" 300 false).dueAt - 305 < -60 →
      ∀ ts : List Int, (∀ t ∈ ts, 305 ≤ t) →
        reminderEmissions ts (ScheduledReminder.mk 7 "pills" 300 false) = [])) :=
  ⟨rfl, c2_due_window 305 (ScheduledReminder.mk 7 "pills" 300 false) rfl⟩

/-! ## NotificationQueue -/

/-- Modelled from the spec: `push(n)` appends a notification to the queue;
it never blocks and never drops. -/
def push (q : List Notification) (n : Notification) : List Notification :=
  q ++ [n]

/-- Modelled from the spec: `drain()` atomically returns and clears the
current contents.  The first component is the sequence handed to the caller,
the second is the queue state after the call. -/
def drain (q : List Notification) : List Notification × List Notification :=
  (q, [])

/-- Modelled from the spec: `dismiss(id)` removes all entries with the given
id without requiring a full drain. -/
def dismiss (q : List Notification) (x : Nat) : List Notification :=
  q.filter (fun n => decide (n.id ≠ x))

/-- Claim C4: `drain()` is a one-shot read — for every queue state the first
drain returns exactly the current contents, an immediately following drain
with no intervening push returns the empty sequence, and after a fresh push
the next drain returns just the pushed element. -/
theorem c4_drain_one_shot (q : List Notification) :
    (drain q).1 = q ∧
    (drain (drain q).2).1 = [] ∧
    (∀ n, (drain (push (drain q).2 n)).1 = [n]) := by
  refine ⟨rfl, rfl, ?_⟩
  intro n
  simp [drain, push]

/-! ## CommandRouter -/

/-- Handler interface of the command router: a display name and the
`matches(text)` predicate the router consults. -/
structure Handler where
  name : String
  matchesCmd : String → Bool

/-- Occurrence test at character level: the pattern is an infix of the text.
Character lists are used so that the definition is structural and
kernel-computable. -/
def occursIn (pat : List Char) : List Char → Bool
  | [] => pat.isEmpty
  | c :: rest => pat.isPrefixOf (c :: rest) || occursIn pat rest

/-- Lower-cased character sequence of a string. -/
def lowerChars (s : String) : List Char :=
  s.data.map Char.toLower

/-- Modelled from the spec: case-insensitive substring containment of the
pattern in the string. -/
def containsSub (s pat : String) : Bool :=
  occursIn (lowerChars pat) (lowerChars s)

/-- Modelled from the spec: a handler keyword list matches a command when any
keyword appears anywhere in the lower-cased command. -/
def keywordMatches (keywords : List String) (cmd : String) : Bool :=
  keywords.any (fun k => containsSub cmd k)

/-- Modelled from the spec: `route` walks the fixed handler list strictly in
order and commits to the first handler whose `matches` returns true,
returning its position; `none` signals an unhandled command. -/
def routeIdx : List Handler → String → Option Nat
  | [], _ => none
  | h :: rest, cmd =>
    if h.matchesCmd cmd then some 0
    else (routeIdx rest cmd).map (· + 1)

theorem routeIdx_matches (hs : List Handler) (cmd : String) (i : Nat)
    (h : routeIdx hs cmd = some i) :
    ∃ hh, hs.get? i = some hh ∧ hh.matchesCmd cmd = true := by
  induction hs generalizing i with
  | nil => simp [routeIdx] at h
  | cons hd tl ih =>
    by_cases hm : hd.matchesCmd cmd = true
    · simp only [routeIdx, hm, if_true, Option.some.injEq] at h
      subst h
      exact ⟨hd, rfl, hm⟩
    · simp only [routeIdx, hm, Bool.false_eq_true, if_false,
        Option.map_eq_some'] at h
      obtain ⟨i0, hi0, hplus⟩ := h
      obtain ⟨hh, hget, hmm⟩ := ih i0 hi0
      subst hplus
      exact ⟨hh, by simpa using hget, hmm⟩

theorem routeIdx_earlier (hs : List Handler) (cmd : String) (i : Nat)
    (h : routeIdx hs cmd = some i) (j : Nat) (hj : j < i) (hh : Handler)
    (hg : hs.get? j = some hh) : hh.matchesCmd cmd = false := by
  induction hs generalizing i j with
  | nil => simp [routeIdx] at h
  | cons hd tl ih =>
    by_cases hm : hd.matchesCmd cmd = true
    · simp only [routeIdx, hm, if_true, Option.some.injEq] at h
      omega
    · simp only [routeIdx, hm, Bool.false_eq_true, if_false,
        Option.map_eq_some'] at h
      obtain ⟨i0, hi0, hplus⟩ := h
      subst hplus
      cases j with
      | zero =>
        simp only [List.get?_cons_zero, Option.some.injEq] at hg
        subst hg
        simpa using hm
      | succ j0 =>
        simp only [List.get?_cons_succ] at hg
        exact ih i0 hi0 j0 (by omega) hg

theorem routeIdx_later_irrelevant (hs : List Handler) (cmd : String) (i : Nat)
    (h : routeIdx hs cmd = some i) :
    ∀ hs2 : List Handler, hs2.take (i + 1) = hs.take (i + 1) →
      routeIdx hs2 cmd = some i := by
  induction hs generalizing i with
  | nil => simp [routeIdx] at h
  | cons hd tl ih =>
    intro hs2 htake
    cases hs2 with
    | nil => simp at htake
    | cons hd2 tl2 =>
      simp only [List.take_succ_cons, List.cons.injEq] at htake
      obtain ⟨hhd, htl⟩ := htake
      subst hhd
      by_cases hm : hd2.matchesCmd cmd = true
      · simp only [routeIdx, hm, if_true, Option.some.injEq] at h
        subst h
        simp [routeIdx, hm]
      · simp only [routeIdx, hm, Bool.false_eq_true, if_false,
          Option.map_eq_some'] at h
        obtain ⟨i0, hi0, hplus⟩ := h
        subst hplus
        have := ih i0 hi0 tl2 (by simpa using htl)
        simp [routeIdx, hm, this]

/-- Claim C5: for every handler list and command, the router commits to the
first handler whose `matches` returns true — the selected handler matches,
every earlier handler fails to match, and replacing the handlers after the
selected position changes nothing — and routing is deterministic: equal
handler order and equal command text yield the same selection. -/
theorem c5_route_first_match (hs : List Handler) (cmd : String) :
    (∀ i, routeIdx hs cmd = some i →
      (∃ hh, hs.get? i = some hh ∧ hh.matchesCmd cmd = true) ∧
      (∀ j, j < i → ∀ hh, hs.get? j = some hh → hh.matchesCmd cmd = false) ∧
      (∀ hs2 : List Handler, hs2.take (i + 1) = hs.take (i + 1) →
        routeIdx hs2 cmd = some i)) ∧
    (∀ hs2 cmd2, hs2 = hs → cmd2 = cmd → routeIdx hs2 cmd2 = routeIdx hs cmd) := by
  constructor
  · intro i h
    exact ⟨routeIdx_matches hs cmd i h,
      fun j hj hh hg => routeIdx_earlier hs cmd i h j hj hh hg,
      routeIdx_later_irrelevant hs cmd i h⟩
  · intro hs2 cmd2 h1 h2
    rw [h1, h2]

/-- Concrete handler used in witnesses: information intents. -/
def infoHandler : Handler :=
  ⟨"info", fun c => keywordMatches ["time", "date", "weather", "news"] c⟩

/-- Concrete handler used in witnesses: reminder intents. -/
def reminderHandler : Handler :=
  ⟨"reminder", fun c => keywordMatches ["remind", "reminder", "medicine"] c⟩

theorem c5_route_first_match_witness :
    routeIdx [infoHandler, reminderHandler] ("set reminder for medicine") = some 1 ∧
    (∀ i, routeIdx [infoHandler, reminderHandler] ("set reminder for medicine") = some i →
      (∃ hh, [infoHandler, reminderHandler].get? i = some hh ∧
        hh.matchesCmd ("set reminder for medicine") = true) ∧
      (∀ j, j < i → ∀ hh, [infoHandler, reminderHandler].get? j = some hh →
        hh.matchesCmd ("set reminder for medicine") = false) ∧
      (∀ hs2 : List Handler, hs2.take (i + 1) =
          [infoHandler, reminderHandler].take (i + 1) →
        routeIdx hs2 ("set reminder for medicine") = some i)) ∧
    (∀ hs2 cmd2, hs2 = [infoHandler, reminderHandler] →
      cmd2 = "set reminder for medicine" →
      routeIdx hs2 cmd2 =
        routeIdx [infoHandler, reminderHandler] ("set reminder for medicine")) :=
  ⟨by decide,
    (c5_route_first_match [infoHandler, reminderHandler]
      ("set reminder for medicine")).1,
    (c5_route_first_match [infoHandler, reminderHandler]
      ("set reminder for medicine")).2⟩

/-! ## Delete sub-command -/

/-- Modelled from the spec: the user-facing error message returned for an
out-of-range delete index. -/
def outOfRangeMsg (n : Nat) : String :=
  "Sorry, I could not find reminder number " ++ toString n ++ "."

/-- Modelled from the spec: `delete reminder N` removes the N-th (1-indexed,
display-order) reminder; an out-of-range index is a no-op reported through an
error message, not a fault. -/
def deleteReminderAt (store : List ScheduledReminder) (n : Nat) :
    List ScheduledReminder × String :=
  if 1 ≤ n ∧ n ≤ store.length then
    (store.eraseIdx (n - 1), "Deleted reminder number " ++ toString n ++ ".")
  else
    (store, outOfRangeMsg n)

/-- Claim C6: a delete command whose 1-indexed index is out of range leaves
the reminder collection unchanged and returns the out-of-range error message
(the operation is total — no fault is raised); an in-range index really
removes one record. -/
theorem c6_delete_out_of_range (store : List ScheduledReminder) (n : Nat)
    (h : ¬(1 ≤ n ∧ n ≤ store.length)) :
    (deleteReminderAt store n).1 = store ∧
    (deleteReminderAt store n).2 = outOfRangeMsg n ∧
    (∀ s2 : List ScheduledReminder, ∀ m, 1 ≤ m → m ≤ s2.length →
      (deleteReminderAt s2 m).1.length + 1 = s2.length) := by
  refine ⟨?_, ?_, ?_⟩
  · simp [deleteReminderAt, h]
  · simp [deleteReminderAt, h]
  · intro s2 m h1 h2
    simp only [deleteReminderAt, if_pos (And.intro h1 h2)]
    rw [List.length_eraseIdx]
    have hlt : m - 1 < s2.length := by omega
    rw [if_pos hlt]
    omega

theorem c6_delete_out_of_range_witness :
    ¬(1 ≤ 3 ∧ 3 ≤ ([⟨1, "medicine", 5, false⟩] :
        List ScheduledReminder).length) ∧
    ((deleteReminderAt [⟨1, "medicine", 5, false⟩] 3).1 =
        [⟨1, "medicine", 5, false⟩] ∧
      (deleteReminderAt [⟨1, "medicine", 5, false⟩] 3).2 = outOfRangeMsg 3 ∧
      (∀ s2 : List ScheduledReminder, ∀ m, 1 ≤ m → m ≤ s2.length →
        (deleteReminderAt s2 m).1.length + 1 = s2.length)) :=
  ⟨by decide, c6_delete_out_of_range [⟨1, "medicine", 5, false⟩] 3 (by decide)⟩

/-! ## TimeExpressionParser -/

/-- Split a character list on a separator character; structural version of
string splitting, so that the kernel can evaluate it. -/
def splitOnChar (sep : Char) : List Char → List (List Char)
  | [] => [[]]
  | c :: rest =>
    let r := splitOnChar sep rest
    if c == sep then [] :: r
    else
      match r with
      | [] => [[c]]
      | p :: ps => (c :: p) :: ps

/-- Trim leading and trailing whitespace from a character list. -/
def trimChars (cs : List Char) : List Char :=
  ((cs.dropWhile Char.isWhitespace).reverse.dropWhile Char.isWhitespace).reverse

/-- Parse a nonempty all-digit character list into a number. -/
def digitsToNat (cs : List Char) : Option Nat :=
  if !cs.isEmpty && cs.all Char.isDigit then
    some (cs.foldl (fun a c => 10 * a + (c.toNat - 48)) 0)
  else none

/-- Modelled from the spec: the documented 12-hour to 24-hour conversion —
12:xx am maps to hour 0, 12:xx pm stays hour 12, afternoon hours 1 to 11
gain 12 and morning hours 1 to 11 are unchanged. -/
def to24Hour (h : Nat) (isPM : Bool) : Nat :=
  if isPM then (if h = 12 then 12 else h + 12)
  else (if h = 12 then 0 else h)

/-- Modelled from the spec: validation and conversion of a structured 12-hour
reading — hour 1 to 12, minute 0 to 59, then the documented conversion. -/
def convert12 (h m : Nat) (isPM : Bool) : Option (Nat × Nat) :=
  if 1 ≤ h ∧ h ≤ 12 ∧ m ≤ 59 then some (to24Hour h isPM, m) else none

/-- Modelled from the spec: the 12-hour clause `H[:MM] am|pm` over a
lower-cased character sequence, optional space before the meridiem.  The
result is the 24-hour (hour, minute) pair, or none when the text is not a
well-formed 12-hour time. -/
def parse12Chars (cs0 : List Char) : Option (Nat × Nat) :=
  let cs := trimChars cs0
  let meridiem :=
    if List.isSuffixOf (['p', 'm']) cs then some (cs.dropLast.dropLast, true)
    else if List.isSuffixOf (['a', 'm']) cs then some (cs.dropLast.dropLast, false)
    else none
  match meridiem with
  | none => none
  | some (core, isPM) =>
    match splitOnChar (Char.ofNat 58) (trimChars core) with
    | [hcs] =>
      (match digitsToNat hcs with
       | some h => convert12 h 0 isPM
       | none => none)
    | [hcs, mcs] =>
      (match digitsToNat hcs, digitsToNat mcs with
       | some h, some m => if mcs.length = 2 then convert12 h m isPM else none
       | _, _ => none)
    | _ => none

/-- Modelled from the spec: the explicit 24-hour clause `HH:MM`, hour 0 to 23
and minute 0 to 59, over a lower-cased character sequence. -/
def parse24Chars (cs0 : List Char) : Option (Nat × Nat) :=
  match splitOnChar (Char.ofNat 58) (trimChars cs0) with
  | [hcs, mcs] =>
    (match digitsToNat hcs, digitsToNat mcs with
     | some h, some m =>
       if h ≤ 23 ∧ m ≤ 59 ∧ mcs.length = 2 then some (h, m) else none
     | _, _ => none)
  | _ => none

/-- Modelled from the spec: a candidate phrase is a time expression when it
is an explicit 24-hour time or a 12-hour time with meridiem; the 24-hour form
is the more specific pattern and is tried first. -/
def tokenTimeChars (cs : List Char) : Option (Nat × Nat) :=
  match parse24Chars cs with
  | some r => some r
  | none => parse12Chars cs

/-- String entry point of the 12-hour clause, used on whole (already
isolated) phrases. -/
def parseTime12 (s : String) : Option (Nat × Nat) :=
  parse12Chars (lowerChars s)

/-- Modelled from the spec: scan of the word sequence of a command for the
first time expression.  At each position the adjacent word pair (covering the
optional space before a meridiem) is the more specific structural pattern and
is tried before the bare word, so a spaced `h:mm am|pm` phrase is read as a
12-hour time with meridiem and not as a bare `h:mm` 24-hour time. -/
def findTime : List (List Char) → Option (Nat × Nat)
  | [] => none
  | [t] => tokenTimeChars t
  | t1 :: t2 :: rest =>
    match tokenTimeChars (t1 ++ [' '] ++ t2) with
    | some r => some r
    | none =>
      match tokenTimeChars t1 with
      | some r => some r
      | none => findTime (t2 :: rest)

/-- Words of a command: lower-cased, split on spaces, empties dropped. -/
def commandWords (s : String) : List (List Char) :=
  (splitOnChar (Char.ofNat 32) (trimChars (lowerChars s))).filter
    (fun t => !t.isEmpty)

/-- Modelled from the spec: the TimeExpressionParser — given free text it
produces either a canonical (day-offset, hour, minute) result, honouring an
optional `tomorrow` keyword as a one-day shift, or none when no time
expression is recognized.  Malformed input is an ordinary none, never a
fault. -/
def parseTimeExpression (s : String) : Option (Nat × Nat × Nat) :=
  let toks := commandWords s
  let offset :=
    if toks.contains (['t', 'o', 'm', 'o', 'r', 'r', 'o', 'w']) then 1 else 0
  match findTime toks with
  | some (h, m) => some (offset, h, m)
  | none => none

/-- Claim C3: the parser's 12-hour handling equals the documented 24-hour
conversion — 12:xx am gives 00:xx, 12:xx pm gives 12:xx, pm hours 1 to 11
gain 12, am hours 1 to 11 are unchanged — and the TimeExpressionParser itself
maps the concrete spec examples (and a spaced h:mm pm form) accordingly. -/
theorem c3_twelve_hour_conversion :
    (∀ m, m ≤ 59 → convert12 12 m false = some (0, m)) ∧
    (∀ m, m ≤ 59 → convert12 12 m true = some (12, m)) ∧
    (∀ h m, 1 ≤ h → h ≤ 11 → m ≤ 59 → convert12 h m true = some (h + 12, m)) ∧
    (∀ h m, 1 ≤ h → h ≤ 11 → m ≤ 59 → convert12 h m false = some (h, m)) ∧
    parseTime12 ("3pm") = some (15, 0) ∧
    parseTime12 ("12:30 am") = some (0, 30) ∧
    parseTime12 ("12:15 pm") = some (12, 15) ∧
    parseTimeExpression ("3pm") = some (0, 15, 0) ∧
    parseTimeExpression ("12:30 am") = some (0, 0, 30) ∧
    parseTimeExpression ("12:15 pm") = some (0, 12, 15) ∧
    parseTimeExpression ("3:30 pm") = some (0, 15, 30) ∧
    parseTimeExpression ("set reminder for medicine at 3pm") = some (0, 15, 0) := by
  refine ⟨?_, ?_, ?_, ?_, by decide, by decide, by decide, by decide, by decide,
    by decide, by decide, by decide⟩
  · intro m hm
    simp [convert12, to24Hour, hm]
  · intro m hm
    simp [convert12, to24Hour, hm]
  · intro h m h1 h2 hm
    have hx : 1 ≤ h ∧ h ≤ 12 ∧ m ≤ 59 := by omega
    have hne : ¬(h = 12) := by omega
    simp [convert12, to24Hour, hx, hne]
  · intro h m h1 h2 hm
    have hx : 1 ≤ h ∧ h ≤ 12 ∧ m ≤ 59 := by omega
    have hne : ¬(h = 12) := by omega
    simp [convert12, to24Hour, hx, hne]

theorem c3_twelve_hour_conversion_witness :
    (30 : Nat) ≤ 59 ∧ convert12 12 30 false = some (0, 30) :=
  ⟨by decide, c3_twelve_hour_conversion.1 30 (by decide)⟩

/-! ## ReminderHandler set sub-command -/

/-- Modelled from the spec: fixed command stop-words stripped when extracting
the reminder subject. -/
def stopWords : List String :=
  ["set", "a", "an", "the", "reminder", "remind", "me", "to", "for", "at",
    "on", "tomorrow", "am", "pm"]

/-- Modelled from the spec: the reminder subject is the command text with
time tokens and the fixed stop-words removed; when stripping yields nothing
the filler subject is used. -/
def extractSubject (s : String) : String :=
  let keep := (commandWords s).filter (fun t =>
    !(stopWords.map String.data).contains t && (tokenTimeChars t).isNone)
  if keep.isEmpty then "this"
  else String.mk (List.intercalate ([' ']) keep)

/-- Modelled from the spec: canonical due moment, in seconds of local wall
clock, of a parse result relative to the current day index. -/
def dueSeconds (today offset h m : Nat) : Int :=
  (((today + offset) * 24 + h) * 60 + m) * 60

/-- Modelled from the spec: the clarification request returned when the time
expression is not recognized. -/
def clarificationMsg : String :=
  "I did not catch the time. Please tell me when to remind you."

/-- Modelled from the spec: the set sub-command of the ReminderHandler.  On a
successful parse a new ScheduledReminder (completed false) is appended to the
store and a confirmation is returned; on a parse failure the store is left
unchanged and the clarification request is returned.  Both outcomes flow
through the normal response path. -/
def handleSet (store : List ScheduledReminder) (freshId today : Nat)
    (txt : String) : List ScheduledReminder × String :=
  match parseTimeExpression txt with
  | none => (store, clarificationMsg)
  | some (off, h, m) =>
    (store ++ [⟨freshId, extractSubject txt, dueSeconds today off h m, false⟩],
      "Reminder set: " ++ extractSubject txt)

/-- Claim C7: the TimeExpressionParser is total — every input yields either a
canonical result or a not-found result — and when the parse fails inside a
set-reminder command the handler leaves the store unchanged and returns the
clarification request, creating no record. -/
theorem c7_parse_failure_no_record :
    (∀ s : String, parseTimeExpression s = none ∨
      ∃ r, parseTimeExpression s = some r) ∧
    (∀ store freshId today txt, parseTimeExpression txt = none →
      handleSet store freshId today txt = (store, clarificationMsg)) := by
  constructor
  · intro s
    cases h : parseTimeExpression s with
    | none => exact Or.inl rfl
    | some r => exact Or.inr ⟨r, rfl⟩
  · intro store freshId today txt h
    simp [handleSet, h]

theorem c7_parse_failure_no_record_witness :
    parseTimeExpression ("please call my daughter") = none ∧
    handleSet [] 1 0 ("please call my daughter") = ([], clarificationMsg) :=
  ⟨by decide,
    c7_parse_failure_no_record.2 [] 1 0 ("please call my daughter") (by decide)⟩

/-! ## Frontend (App.js) -/

/-- Translation of App.js line 148, `notif.message || ...`: the displayed and
spoken chat message is the notification message field when that field is
truthy, otherwise the fallback built from the text field (JavaScript `||`
treats an absent, null or empty message as falsy). -/
def displayMessage (message : Option String) (txt : String) : String :=
  match message with
  | some m => if m = "" then "Reminder: " ++ txt else m
  | none => "Reminder: " ++ txt

theorem reminderPrefixed_ne_empty (txt : String) : "Reminder: " ++ txt ≠ "" := by
  intro h
  have := congrArg String.length h
  simp [String.length_append] at this
  exact absurd this.1 (by decide)

/-- Claim C8: for every notification coming from the polling read — whose
message field, per the Notification data model, is either absent or the
display string built from the text field — the displayed and spoken chat
message equals the message field whenever it is present and always has the
display format of a reminder label followed by the text. -/
theorem c8_display_format (message : Option String) (txt : String)
    (h : message = none ∨ message = some ("Reminder: " ++ txt)) :
    displayMessage message txt = "Reminder: " ++ txt ∧
    (∀ m, message = some m → displayMessage message txt = m) := by
  rcases h with h | h
  · subst h
    exact ⟨rfl, fun m hm => by simp at hm⟩
  · subst h
    have hne : ¬("Reminder: " ++ txt = "") := reminderPrefixed_ne_empty txt
    constructor
    · simp [displayMessage, hne]
    · intro m hm
      simp only [Option.some.injEq] at hm
      subst hm
      simp [displayMessage, hne]

theorem c8_display_format_witness :
    ((some ("Reminder: medicine") : Option String) = none ∨
      (some ("Reminder: medicine") : Option String) =
        some ("Reminder: " ++ "medicine")) ∧
    (displayMessage (some ("Reminder: medicine")) ("medicine") =
        "Reminder: " ++ "medicine" ∧
      (∀ m, (some ("Reminder: medicine") : Option String) = some m →
        displayMessage (some ("Reminder: medicine")) ("medicine") = m)) :=
  ⟨Or.inr (by decide),
    c8_display_format (some ("Reminder: medicine")) ("medicine")
      (Or.inr (by decide))⟩

/-- Translation of App.js handleTextSubmit (lines 425 to 430): when the
trimmed input is non-empty the original untrimmed value is submitted as the
command and the field is cleared; otherwise nothing is submitted and the
field keeps its value.  The first component is the command sent (at most
one), the second the input-field value afterwards. -/
def handleTextSubmit (input : String) : Option String × String :=
  if (trimChars input.data).isEmpty then (none, input) else (some input, "")

/-- Claim C9: a text submission whose trimmed form is empty sends no command
and leaves the input field unchanged; one whose trimmed form is non-empty
submits the original untrimmed value exactly once and resets the field to
the empty string. -/
theorem c9_text_submit (input : String) :
    ((trimChars input.data).isEmpty = true →
      handleTextSubmit input = (none, input)) ∧
    ((trimChars input.data).isEmpty = false →
      handleTextSubmit input = (some input, "")) := by
  constructor
  · intro h
    simp [handleTextSubmit, h]
  · intro h
    simp [handleTextSubmit, h]

theorem c9_text_submit_witness :
    (trimChars (String.data ("   "))).isEmpty = true ∧
    handleTextSubmit ("   ") = (none, "   ") :=
  ⟨by decide, (c9_text_submit ("   ")).1 (by decide)⟩

/-- Translation of the polling iteration body in App.js (lines 138 to 165):
a non-empty notification batch triggers an immediate reminder refresh, then
the refresh counter is incremented and, on reaching 6, a periodic reminder
refresh fires and the counter resets to 0.  The result is (new counter,
batch refresh fired, periodic refresh fired). -/
def pollStep (counter : Nat) (batchNonempty : Bool) : Nat × Bool × Bool :=
  if 6 ≤ counter + 1 then (0, batchNonempty, true)
  else (counter + 1, batchNonempty, false)

/-- Counter value at the start of polling iteration n (0-based), starting
from the initial value 0 of reminderRefreshCounter.  The counter update does
not depend on the batch, so the batch argument is fixed. -/
def pollCounterAt : Nat → Nat
  | 0 => 0
  | n + 1 => (pollStep (pollCounterAt n) false).1

theorem pollCounterAt_mod (n : Nat) : pollCounterAt n = n % 6 := by
  induction n with
  | zero => rfl
  | succ n ih =>
    simp only [pollCounterAt, pollStep]
    rw [ih]
    by_cases h : 6 ≤ n % 6 + 1
    · rw [if_pos h]
      omega
    · rw [if_neg h]
      omega

/-- Claim C10: at the start of every polling iteration the refresh counter
lies in 0 to 5 (it equals the iteration index mod 6); the periodic reminder
refresh fires exactly on every 6th iteration, after which the counter is 0;
and the batch-triggered refresh fires exactly when the poll returned a
non-empty batch. -/
theorem c10_poll_refresh (n : Nat) :
    pollCounterAt n ≤ 5 ∧
    pollCounterAt n = n % 6 ∧
    (∀ b, ((pollStep (pollCounterAt n) b).2.2 = true ↔ (n + 1) % 6 = 0)) ∧
    (∀ b, (pollStep (pollCounterAt n) b).2.1 = b) ∧
    (∀ b, (pollStep (pollCounterAt n) b).2.2 = true →
      (pollStep (pollCounterAt n) b).1 = 0) := by
  have hc := pollCounterAt_mod n
  refine ⟨by omega, hc, ?_, ?_, ?_⟩
  · intro b
    rw [hc]
    by_cases h : 6 ≤ n % 6 + 1
    · simp only [pollStep, if_pos h]
      simp only [true_iff]
      omega
    · simp only [pollStep, if_neg h]
      simp only [Bool.false_eq_true, false_iff]
      omega
  · intro b
    by_cases h : 6 ≤ pollCounterAt n + 1
    · simp [pollStep, h]
    · simp [pollStep, h]
  · intro b
    by_cases h : 6 ≤ pollCounterAt n + 1
    · simp [pollStep, h]
    · simp [pollStep, h]

theorem c10_poll_refresh_witness :
    pollCounterAt 5 = 5 % 6 ∧ (pollStep (pollCounterAt 5) true).1 = 0 :=
  ⟨(c10_poll_refresh 5).2.1, (c10_poll_refresh 5).2.2.2.2 true (by decide)⟩

end ElderlyAssistant
